import Mathlib

/-!
# vpnmasq, package `out`: buffering sink and tee reader

A shallow embedding of `out/buffer.go` and `out/listen.go`.

* Bytes are `UInt8`; a Go byte slice is a `List Byte`.
* Go objects reached through an interface (`io.Writer`, `io.ReadCloser`) live in a `Heap`
  and are referred to by an address (`Nat`); a nil interface is `none`.
  An object is deterministic: what a call returns is a function of the calls it has seen.
* The mutex of `Buffer` serialises `Write` and `Pipe`; the model is the resulting
  sequence of calls, each one running to its end.
* A call either returns, panics, or blocks for ever (`Outcome`).
* Counts returned by `Write` and `Read` are natural numbers (the `io` contracts exclude
  negative counts).
-/

namespace Out

/-- One byte of a stream. -/
abbrev Byte := UInt8

/-- Go `error` values that occur in the package. `wrapError` is what
`fmt.Errorf` builds for a format with one `%w` verb: the text before the verb and the
wrapped error. -/
inductive Error where
  | EOF
  | ErrShortWrite
  | ErrClosed
  | other (code : Nat)
  | wrapError (msg : String) (err : Error)
  deriving DecidableEq, Repr

/-- Go `errors.Unwrap`. -/
def Error.Unwrap : Error → Option Error
  | .wrapError _ err => some err
  | _ => none

/-- Go `errors.Is`: the error or one in its chain of wrapped errors is the target. -/
def Error.Is : Error → Error → Bool
  | .wrapError msg err, target =>
      if Error.wrapError msg err = target then true else Error.Is err target
  | e, target => decide (e = target)

/-- Go `fmt.Errorf(format, err)` where `format` is `msg` followed by `%w`. -/
def fmtErrorf (msg : String) (err : Error) : Error :=
  Error.wrapError msg err

/-- How a call ends. -/
inductive Outcome (α : Type) where
  | returned (a : α)
  | panicked (msg : String)
  | blocked
  deriving DecidableEq, Repr

/-- One call of `Write` seen by a writer: the slice, and the count and error it reported. -/
structure WriteCall where
  p : List Byte
  n : Nat
  err : Option Error
  deriving DecidableEq, Repr

/-- An `io.Writer` object: its behaviour (the result of `Write(p)` after the calls in the
log) and the log of the calls made so far, oldest first. -/
structure Writer where
  respond : List WriteCall → List Byte → Nat × Option Error
  calls : List WriteCall

/-- The bytes a writer has taken so far: of each call, the part it reported as written. -/
def Writer.received (w : Writer) : List Byte :=
  (w.calls.map fun c => c.p.take c.n).flatten

/-- An `io.ReadCloser` object. `onRead reads closes buff` is what the next `Read(buff)`
does after `reads` reads and `closes` closes: the new contents of `buff`, the count and
the error. `onClose reads closes` is the result of the next `Close()`. -/
structure Source where
  onRead : Nat → Nat → List Byte → List Byte × Nat × Option Error
  onClose : Nat → Nat → Option Error
  reads : Nat
  closes : Nat

/-- The objects outside the package that the code calls into. -/
structure Heap where
  writers : Nat → Writer
  sources : Nat → Source

/-- The call `w.Write(p)` on the writer at address `w`. -/
def Heap.Write (h : Heap) (w : Nat) (p : List Byte) : Heap × Nat × Option Error :=
  let o := h.writers w
  let r := o.respond o.calls p
  let o1 : Writer := { o with calls := o.calls ++ [WriteCall.mk p r.1 r.2] }
  ({ h with writers := Function.update h.writers w o1 }, r.1, r.2)

/-- The call `r.Read(buff)` on the source at address `r`; the second component is `buff`
after the call. -/
def Heap.Read (h : Heap) (r : Nat) (buff : List Byte) :
    Heap × List Byte × Nat × Option Error :=
  let o := h.sources r
  let res := o.onRead o.reads o.closes buff
  let o1 : Source := { o with reads := o.reads + 1 }
  ({ h with sources := Function.update h.sources r o1 }, res.1, res.2.1, res.2.2)

/-- The call `r.Close()` on the source at address `r`. -/
def Heap.Close (h : Heap) (r : Nat) : Heap × Option Error :=
  let o := h.sources r
  let o1 : Source := { o with closes := o.closes + 1 }
  ({ h with sources := Function.update h.sources r o1 }, o.onClose o.reads o.closes)

/-! ## `bytes.Buffer` -/

/-- Go `bytes.Buffer`, as its unread portion `buf[off:]`. -/
structure BytesBuffer where
  unread : List Byte
  deriving DecidableEq, Repr

/-- Go `(*bytes.Buffer).Len`. -/
def BytesBuffer.Len (b : BytesBuffer) : Nat := b.unread.length

/-- Go `(*bytes.Buffer).Reset`. -/
def BytesBuffer.Reset (_b : BytesBuffer) : BytesBuffer := { unread := [] }

/-- Go `(*bytes.Buffer).Write`: appends, returns `len(p)` and a nil error. -/
def BytesBuffer.Write (b : BytesBuffer) (p : List Byte) : BytesBuffer × Nat × Option Error :=
  ({ unread := b.unread ++ p }, p.length, none)

/-- Go `(*bytes.Buffer).WriteTo`: one `Write` of the unread portion when it is not empty;
the buffer advances past the `m` bytes reported as written; a count above the length
panics; the buffer is reset only when everything was written without error. -/
def BytesBuffer.WriteTo (h : Heap) (b : BytesBuffer) (w : Option Nat) :
    Outcome (Heap × BytesBuffer × Nat × Option Error) :=
  let nBytes := b.Len
  if nBytes > 0 then
    match w with
    | none => .panicked "invalid memory address or nil pointer dereference"
    | some w =>
      let r := h.Write w b.unread
      let m := r.2.1
      let e := r.2.2
      if m > nBytes then .panicked "bytes.Buffer.WriteTo: invalid Write count"
      else
        let b1 : BytesBuffer := { unread := b.unread.drop m }
        match e with
        | some e => .returned (r.1, b1, m, some e)
        | none =>
          if m ≠ nBytes then .returned (r.1, b1, m, some Error.ErrShortWrite)
          else .returned (r.1, b1.Reset, m, none)
  else .returned (h, b.Reset, 0, none)

/-! ## Channels -/

/-- The state of the completion channel `closed`: the values its sender is still going to
send, in order, and whether the channel has been closed. -/
structure Chan where
  pending : List (Option Error)
  isClosed : Bool
  deriving DecidableEq, Repr

/-- A receive `<-c`: takes the next value sent; on a closed channel yields the zero value
(a nil error); with nothing left to be sent on an open channel it blocks for ever. -/
def Chan.recv (c : Chan) : Outcome (Chan × Option Error) :=
  match c.pending with
  | v :: rest => .returned ({ c with pending := rest }, v)
  | [] => if c.isClosed then .returned (c, none) else .blocked

/-! ## `out/buffer.go` -/

/-- Go `Buffer`. `buff`, `r` and `dst` are `none` when nil; `closed` is the state of the
channel the field refers to. -/
structure Buffer where
  buff : Option BytesBuffer
  r : Option Nat
  dst : Option Nat
  closed : Chan
  deriving DecidableEq, Repr

/-- Go `bufferWriter`: the embedded `*Buffer`. -/
abbrev bufferWriter := Buffer

/-- Go `newBuffer`. The channel is unbuffered and never closed; the goroutine sends on it
once, the result `copyErr` of its `io.Copy`. -/
def newBuffer (r : Option Nat) (copyErr : Option Error) : bufferWriter :=
  { buff := none, r := r, dst := none,
    closed := { pending := [copyErr], isClosed := false } }

/-- Go `NewBuffer`. -/
def NewBuffer (r : Option Nat) (copyErr : Option Error) : Buffer :=
  newBuffer r copyErr

/-- Go `(*bufferWriter).mustBuff`. -/
def bufferWriter.mustBuff (b : bufferWriter) : bufferWriter :=
  match b.buff with
  | none => { b with buff := some { unread := [] } }
  | some _ => b

/-- Go `(*bufferWriter).Write`. -/
def bufferWriter.Write (h : Heap) (b : bufferWriter) (buff : List Byte) :
    Heap × bufferWriter × Nat × Option Error :=
  match b.dst with
  | some dst =>
    let r := h.Write dst buff
    (r.1, b, r.2.1, r.2.2)
  | none =>
    let b1 := bufferWriter.mustBuff b
    match b1.buff with
    | some bb =>
      let r := bb.Write buff
      (h, { b1 with buff := some r.1 }, r.2.1, r.2.2)
    -- not taken: `mustBuff` leaves `buff` non-nil
    | none => (h, b1, 0, none)

/-- Go `(*Buffer).Pipe`. -/
def Buffer.Pipe (h : Heap) (b : Buffer) (out : Option Nat) :
    Outcome (Heap × Buffer × Option Error) :=
  match b.buff with
  | some bb =>
    let l := bb.Len
    match bb.WriteTo h out with
    | .returned (h1, bb1, n, err) =>
      if n ≠ l then
        match err with
        | some e => .returned (h1, { b with buff := some bb1 }, some e)
        | none => .returned (h1, { b with buff := some bb1 }, some Error.ErrShortWrite)
      else .returned (h1, { b with buff := none, dst := out }, none)
    | .panicked msg => .panicked msg
    | .blocked => .blocked
  | none => .returned (h, { b with dst := out }, none)

/-- Go `(*Buffer).Close`. -/
def Buffer.Close (h : Heap) (b : Buffer) : Outcome (Heap × Buffer × Option Error) :=
  match b.r with
  | none => .returned (h, b, some Error.ErrClosed)
  | some r =>
    let c := h.Close r
    let err := c.2
    let b1 : Buffer := { b with r := none }
    match b1.closed.recv with
    | .returned (ch, copyErr) =>
      match copyErr with
      | some e => .returned (c.1, { b1 with closed := ch }, some e)
      | none => .returned (c.1, { b1 with closed := ch }, err)
    | .panicked msg => .panicked msg
    | .blocked => .blocked

/-- Go `(*Buffer).Remaining`. -/
def Buffer.Remaining (b : Buffer) : Outcome (Buffer × Option BytesBuffer) :=
  match b.closed.recv with
  | .returned (ch, err) =>
    match err with
    | some _ => .panicked "Close() must be called before Remaining()"
    | none => .returned ({ b with closed := ch }, b.buff)
  | .panicked msg => .panicked msg
  | .blocked => .blocked

/-! ## `out/listen.go` -/

/-- Go `listener`: the addresses of the source and of the duplication target. -/
structure listener where
  src : Nat
  copy : Nat
  deriving DecidableEq, Repr

/-- Go `ListenCopy`. -/
def ListenCopy (src : Nat) (copy : Nat) : listener :=
  { src := src, copy := copy }

/-- Go `(*listener).Read`; the second component is `buff` after the call. -/
def listener.Read (h : Heap) (l : listener) (buff : List Byte) :
    Heap × List Byte × Nat × Option Error :=
  let rd := h.Read l.src buff
  let n := rd.2.2.1
  let err := rd.2.2.2
  let wr := rd.1.Write l.copy rd.2.1
  let w := wr.2.1
  let wErr := wr.2.2
  if w = n ∧ wErr = none then (wr.1, rd.2.1, n, err)
  else
    let wErr1 := match wErr with
      | none => Error.ErrShortWrite
      | some e => e
    (wr.1, rd.2.1, n, some (fmtErrorf "Write error copying stream: " wErr1))

/-- Go `(*listener).Close`. -/
def listener.Close (h : Heap) (l : listener) : Heap × Option Error :=
  h.Close l.src

/-! ## Sequences of calls -/

/-- The bytes held by the sink: those of `buff`, none when `buff` is nil. -/
def Buffer.contents (b : Buffer) : List Byte :=
  match b.buff with
  | some bb => bb.unread
  | none => []

/-- Calls `bufferWriter.Write` on each slice in order; the third component lists the
pair each call returned. -/
def writeAll (h : Heap) (b : bufferWriter) :
    List (List Byte) → Heap × bufferWriter × List (Nat × Option Error)
  | [] => (h, b, [])
  | p :: ps =>
    let r := bufferWriter.Write h b p
    let rest := writeAll r.1 r.2.1 ps
    (rest.1, rest.2.1, (r.2.2.1, r.2.2.2) :: rest.2.2)

/-- A call on the sink. -/
inductive Op where
  | write (p : List Byte)
  | pipe (out : Option Nat)
  | close
  | remaining
  deriving DecidableEq, Repr

/-- The state after one call that returns; `none` when the call panics or blocks. -/
def step (s : Heap × Buffer) : Op → Option (Heap × Buffer)
  | .write p =>
    let r := bufferWriter.Write s.1 s.2 p
    some (r.1, r.2.1)
  | .pipe out =>
    match Buffer.Pipe s.1 s.2 out with
    | .returned r => some (r.1, r.2.1)
    | _ => none
  | .close =>
    match Buffer.Close s.1 s.2 with
    | .returned r => some (r.1, r.2.1)
    | _ => none
  | .remaining =>
    match Buffer.Remaining s.2 with
    | .returned r => some (s.1, r.1)
    | _ => none

/-- The state after a sequence of calls that all return. -/
def run (s : Heap × Buffer) : List Op → Option (Heap × Buffer)
  | [] => some s
  | op :: ops =>
    match step s op with
    | some s1 => run s1 ops
    | none => none

/-! ## Concrete objects -/

/-- A writer that takes every slice whole. -/
def acceptAll : Writer :=
  { respond := fun _ p => (p.length, none), calls := [] }

/-- A writer that takes one byte of every slice and reports no error. -/
def acceptOne : Writer :=
  { respond := fun _ _ => (1, none), calls := [] }

/-- A writer that takes nothing and reports the error `e`. -/
def rejectAll (e : Error) : Writer :=
  { respond := fun _ _ => (0, some e), calls := [] }

/-- A source at end of stream: `Read` gives `(0, io.EOF)`, `Close` gives nil. -/
def drySource : Source :=
  { onRead := fun _ _ buff => (buff, 0, some Error.EOF),
    onClose := fun _ _ => none, reads := 0, closes := 0 }

/-- A source whose `Read` puts the two bytes `hi` at the start of the slice. -/
def hiSource : Source :=
  { onRead := fun _ _ buff => ([104, 105] ++ buff.drop 2, 2, none),
    onClose := fun _ _ => none, reads := 0, closes := 0 }

/-- Writers: `acceptAll` at 0, `acceptOne` at 1, `rejectAll` elsewhere.
Sources: `hiSource` at 0, `drySource` elsewhere. -/
def demoHeap : Heap :=
  { writers := fun i => if i = 0 then acceptAll else if i = 1 then acceptOne
      else rejectAll (Error.other 1),
    sources := fun i => if i = 0 then hiSource else drySource }

/-- A sink in buffering mode that holds the two bytes `ab`. -/
def abBuffer : Buffer :=
  { buff := some { unread := [97, 98] }, r := some 1, dst := none,
    closed := { pending := [none], isClosed := false } }

/-- The sink `abBuffer` after a `Pipe` to a writer that took one byte. -/
def stuckAb : Buffer :=
  { buff := some { unread := [98] }, r := some 1, dst := none,
    closed := { pending := [none], isClosed := false } }

/-- The sink `abBuffer` after `Close`. -/
def closedAb : Buffer :=
  { buff := some { unread := [97, 98] }, r := none, dst := none,
    closed := { pending := [], isClosed := false } }

/-- A sink in forwarding mode whose destination is the writer at address 1. -/
def forwardingOne : Buffer :=
  { buff := none, r := some 1, dst := some 1,
    closed := { pending := [none], isClosed := false } }

/-- A writer that takes nothing and reports no error. -/
def acceptNone : Writer :=
  { respond := fun _ _ => (0, none), calls := [] }

/-- Writers: `acceptNone` everywhere. Sources: `drySource` everywhere. -/
def noopHeap : Heap :=
  { writers := fun _ => acceptNone, sources := fun _ => drySource }

/-! ## Errors -/

/-- An error is itself under `errors.Is`. -/
theorem Error.Is_self (e : Error) : e.Is e = true := by
  cases e <;> simp [Error.Is]

/-! ## The tee reader -/

/-- The slice that `listener.Read` hands to the duplication target is the whole of `buff`
as the source left it, whatever count the source reported. -/
theorem listener_Read_writes_whole (h : Heap) (l : listener) (buff : List Byte) :
    ((listener.Read h l buff).1.writers l.copy).calls =
      ((h.Read l.src buff).1.writers l.copy).calls ++
        [WriteCall.mk (h.Read l.src buff).2.1
          ((h.Read l.src buff).1.Write l.copy (h.Read l.src buff).2.1).2.1
          ((h.Read l.src buff).1.Write l.copy (h.Read l.src buff).2.1).2.2] := by
  simp only [listener.Read]
  split_ifs <;> simp [Heap.Write]

/-- C3, evaluated: the source puts 2 bytes into a slice of 4; the write issued to the
duplication target carries all 4 bytes of the slice, not the 2 that were read, and since
the target takes all 4 the read is reported as a short write. -/
theorem C3_tee_writes_whole_slice :
    (demoHeap.Read 0 [0, 0, 0, 0]).2 = ([104, 105, 0, 0], 2, none) ∧
    ((listener.Read demoHeap (ListenCopy 0 0) [0, 0, 0, 0]).1.writers 0).calls =
      [WriteCall.mk [104, 105, 0, 0] 4 none] ∧
    (listener.Read demoHeap (ListenCopy 0 0) [0, 0, 0, 0]).2.2 =
      (2, some (Error.wrapError "Write error copying stream: " Error.ErrShortWrite)) := by
  refine ⟨rfl, rfl, rfl⟩

/-- C7: with `(n, err)` the result of the source and `(w, wErr)` the result of the
duplication target, `listener.Read` returns the count `n` in every case; when `w ≠ n` or
`wErr ≠ nil` its error is non-nil and unwraps to `wErr` (to `io.ErrShortWrite` when `wErr`
is nil); when `w = n` and `wErr = nil` it returns the pair `(n, err)` of the source. -/
theorem C7_duplication_failure_is_read_failure (h : Heap) (l : listener) (buff : List Byte)
    (n w : Nat) (err wErr : Option Error)
    (hsrc : (h.Read l.src buff).2.2 = (n, err))
    (hdup : ((h.Read l.src buff).1.Write l.copy (h.Read l.src buff).2.1).2 = (w, wErr)) :
    (listener.Read h l buff).2.2.1 = n ∧
    (w ≠ n ∨ wErr ≠ none →
      ∃ e, (listener.Read h l buff).2.2.2 = some e ∧
        e.Unwrap = some (wErr.getD Error.ErrShortWrite) ∧
        e.Is (wErr.getD Error.ErrShortWrite) = true) ∧
    (w = n ∧ wErr = none → (listener.Read h l buff).2.2 = (n, err)) := by
  have hn : (h.Read l.src buff).2.2.1 = n := by rw [hsrc]
  have he : (h.Read l.src buff).2.2.2 = err := by rw [hsrc]
  have hw : ((h.Read l.src buff).1.Write l.copy (h.Read l.src buff).2.1).2.1 = w := by
    rw [hdup]
  have hwe : ((h.Read l.src buff).1.Write l.copy (h.Read l.src buff).2.1).2.2 = wErr := by
    rw [hdup]
  refine ⟨?_, ?_, ?_⟩
  · simp only [listener.Read]
    split_ifs <;> exact hn
  · intro hfail
    have hcond : ¬ (w = n ∧ wErr = none) := by
      rintro ⟨h1, h2⟩
      rcases hfail with h3 | h3
      · exact h3 h1
      · exact h3 h2
    unfold listener.Read
    simp only [hn, he, hw, hwe, if_neg hcond]
    cases wErr with
    | none => exact ⟨_, rfl, rfl, by simp [fmtErrorf, Error.Is]⟩
    | some e0 => exact ⟨_, rfl, rfl, by simp [fmtErrorf, Error.Is, Error.Is_self]⟩
  · intro hok
    unfold listener.Read
    simp only [hn, he, hw, hwe, if_pos hok]

/-- C7 at a concrete call: the source reads 2 bytes, the target takes one byte. -/
theorem C7_duplication_failure_is_read_failure_witness :
    (demoHeap.Read 0 [0, 0]).2.2 = (2, none) ∧
    ((demoHeap.Read 0 [0, 0]).1.Write 1 (demoHeap.Read 0 [0, 0]).2.1).2 = (1, none) ∧
    (listener.Read demoHeap (ListenCopy 0 1) [0, 0]).2.2.1 = 2 ∧
    ∃ e, (listener.Read demoHeap (ListenCopy 0 1) [0, 0]).2.2.2 = some e ∧
      e.Unwrap = some Error.ErrShortWrite ∧ e.Is Error.ErrShortWrite = true :=
  ⟨rfl, rfl,
    (C7_duplication_failure_is_read_failure demoHeap (ListenCopy 0 1) [0, 0] 2 1 none none
      rfl rfl).1,
    (C7_duplication_failure_is_read_failure demoHeap (ListenCopy 0 1) [0, 0] 2 1 none none
      rfl rfl).2.1 (Or.inl (by decide))⟩

/-- C8, refuted: the source is at end of stream and returns `(0, io.EOF)`; the duplication
target reports an error; `listener.Read` returns the wrapped write error, which neither is
`io.EOF` nor wraps it. -/
theorem C8_counterexample :
    (demoHeap.Read 1 [0]).2.2 = (0, some Error.EOF) ∧
    (listener.Read demoHeap (ListenCopy 1 2) [0]).2.2 =
      (0, some (Error.wrapError "Write error copying stream: " (Error.other 1))) ∧
    ¬ ∃ r, (listener.Read demoHeap (ListenCopy 1 2) [0]).2.2.2 = some r ∧
        r.Is Error.EOF = true := by
  refine ⟨rfl, rfl, ?_⟩
  rintro ⟨r, hr, his⟩
  have hval : (listener.Read demoHeap (ListenCopy 1 2) [0]).2.2.2 =
      some (Error.wrapError "Write error copying stream: " (Error.other 1)) := rfl
  rw [hval] at hr
  cases hr
  simp [Error.Is] at his

/-- C8, amended: when the source returns `(n, e)` with `e` non-nil, `listener.Read` returns
`(n, e)` if the duplication target reports the count `n` and no error; if the target
reports another count or an error `wErr`, `listener.Read` returns `n` and the wrapped write
error (of `io.ErrShortWrite` when `wErr` is nil) in place of `e`. -/
theorem C8_read_error_surfaced_when_duplication_succeeds (h : Heap) (l : listener)
    (buff : List Byte) (n w : Nat) (e : Error) (wErr : Option Error)
    (hsrc : (h.Read l.src buff).2.2 = (n, some e))
    (hdup : ((h.Read l.src buff).1.Write l.copy (h.Read l.src buff).2.1).2 = (w, wErr)) :
    (w = n ∧ wErr = none → (listener.Read h l buff).2.2 = (n, some e)) ∧
    (w ≠ n ∨ wErr ≠ none → (listener.Read h l buff).2.2 =
      (n, some (fmtErrorf "Write error copying stream: "
        (wErr.getD Error.ErrShortWrite)))) := by
  have hn : (h.Read l.src buff).2.2.1 = n := by rw [hsrc]
  have he : (h.Read l.src buff).2.2.2 = some e := by rw [hsrc]
  have hw : ((h.Read l.src buff).1.Write l.copy (h.Read l.src buff).2.1).2.1 = w := by
    rw [hdup]
  have hwe : ((h.Read l.src buff).1.Write l.copy (h.Read l.src buff).2.1).2.2 = wErr := by
    rw [hdup]
  constructor
  · intro hok
    simp only [listener.Read, hn, he, hw, hwe, if_pos hok]
  · intro hfail
    have hcond : ¬ (w = n ∧ wErr = none) := by
      rintro ⟨h1, h2⟩
      rcases hfail with h3 | h3
      · exact h3 h1
      · exact h3 h2
    simp only [listener.Read, hn, he, hw, hwe, if_neg hcond]
    cases wErr <;> rfl

/-- C8 amended, at a concrete call: the source is at end of stream and the target reports
the count 0 and no error. -/
theorem C8_read_error_surfaced_when_duplication_succeeds_witness :
    (noopHeap.Read 0 [0]).2.2 = (0, some Error.EOF) ∧
    ((noopHeap.Read 0 [0]).1.Write 0 (noopHeap.Read 0 [0]).2.1).2 = (0, none) ∧
    (listener.Read noopHeap (ListenCopy 0 0) [0]).2.2 = (0, some Error.EOF) :=
  ⟨rfl, rfl,
    (C8_read_error_surfaced_when_duplication_succeeds noopHeap (ListenCopy 0 0) [0] 0 0
      Error.EOF none rfl rfl).1 ⟨rfl, rfl⟩⟩

/-! ## Close and Remaining -/

/-- A `Close` that returns leaves `r` nil. -/
theorem Buffer.Close_r (h : Heap) (b : Buffer) (h1 : Heap) (b1 : Buffer)
    (e : Option Error) (hclose : Buffer.Close h b = .returned (h1, b1, e)) :
    b1.r = none := by
  unfold Buffer.Close at hclose
  cases hr : b.r with
  | none =>
    simp only [hr] at hclose
    cases hclose
    exact hr
  | some r =>
    simp only [hr] at hclose
    cases hrecv : Chan.recv b.closed with
    | returned a =>
      obtain ⟨ch, copyErr⟩ := a
      simp only [hrecv] at hclose
      cases copyErr <;> simp only at hclose <;> cases hclose <;> rfl
    | panicked msg => simp [hrecv] at hclose
    | blocked => simp [hrecv] at hclose

/-- Every call that returns keeps a nil `r` nil. -/
theorem step_r (s s1 : Heap × Buffer) (op : Op) (hr : s.2.r = none)
    (hstep : step s op = some s1) : s1.2.r = none := by
  obtain ⟨h, b⟩ := s
  cases op with
  | write p =>
    simp only [step, Option.some.injEq] at hstep
    subst hstep
    obtain ⟨buff, r, dst, closed⟩ := b
    cases dst <;> cases buff <;> exact hr
  | pipe out =>
    simp only [step] at hstep
    cases hp : Buffer.Pipe h b out with
    | returned a =>
      simp only [hp, Option.some.injEq] at hstep
      subst hstep
      unfold Buffer.Pipe at hp
      cases hb : b.buff with
      | none =>
        simp only [hb] at hp
        cases hp
        simpa using hr
      | some bb =>
        simp only [hb] at hp
        cases hw : bb.WriteTo h out with
        | returned x =>
          obtain ⟨h2, bb1, n, err⟩ := x
          simp only [hw] at hp
          split_ifs at hp
          · cases err <;> simp only at hp <;> cases hp <;> simpa using hr
          · cases hp
            simpa using hr
        | panicked msg => simp [hw] at hp
        | blocked => simp [hw] at hp
    | panicked msg => simp [hp] at hstep
    | blocked => simp [hp] at hstep
  | close =>
    simp only [step] at hstep
    cases hp : Buffer.Close h b with
    | returned a =>
      obtain ⟨h2, b2, e⟩ := a
      simp only [hp, Option.some.injEq] at hstep
      subst hstep
      exact Buffer.Close_r h b h2 b2 e hp
    | panicked msg => simp [hp] at hstep
    | blocked => simp [hp] at hstep
  | remaining =>
    simp only [step] at hstep
    cases hp : Buffer.Remaining b with
    | returned a =>
      simp only [hp, Option.some.injEq] at hstep
      subst hstep
      unfold Buffer.Remaining at hp
      cases hrecv : Chan.recv b.closed with
      | returned x =>
        obtain ⟨ch, err⟩ := x
        simp only [hrecv] at hp
        cases err <;> simp only at hp
        · cases hp
          simpa using hr
        · cases hp
      | panicked msg => simp [hrecv] at hp
      | blocked => simp [hrecv] at hp
    | panicked msg => simp [hp] at hstep
    | blocked => simp [hp] at hstep

/-- Every sequence of calls that return keeps a nil `r` nil. -/
theorem run_r (ops : List Op) (s s1 : Heap × Buffer) (hr : s.2.r = none)
    (hrun : run s ops = some s1) : s1.2.r = none := by
  induction ops generalizing s with
  | nil =>
    simp only [run, Option.some.injEq] at hrun
    subst hrun
    exact hr
  | cons op ops ih =>
    simp only [run] at hrun
    cases hs : step s op with
    | none => simp [hs] at hrun
    | some s2 =>
      simp only [hs] at hrun
      exact ih s2 (step_r s s2 op hr hs) hrun

/-- C5: once a `Close` has returned, whatever calls are made afterwards (`Write`, `Pipe`,
`Close`, `Remaining`), a further `Close` returns `os.ErrClosed` and leaves the heap (the
source is not closed again) and the sink (`buff`, `dst` and the channel) as they were. -/
theorem C5_double_close (h : Heap) (b : Buffer) (h1 : Heap) (b1 : Buffer)
    (e : Option Error) (hclose : Buffer.Close h b = .returned (h1, b1, e))
    (ops : List Op) (s : Heap × Buffer) (hrun : run (h1, b1) ops = some s) :
    Buffer.Close s.1 s.2 = .returned (s.1, s.2, some Error.ErrClosed) := by
  have hr : s.2.r = none :=
    run_r ops (h1, b1) s (Buffer.Close_r h b h1 b1 e hclose) hrun
  simp [Buffer.Close, hr]

/-- C5 at a concrete run: a sink holding `ab` is closed, written to and piped, and closed
again. -/
theorem C5_double_close_witness :
    ∃ s, run ((demoHeap.Close 1).1, closedAb) [Op.write [99], Op.pipe (some 0)] = some s ∧
      s.2.dst = some 0 ∧
      Buffer.Close s.1 s.2 = .returned (s.1, s.2, some Error.ErrClosed) :=
  ⟨_, rfl, rfl, C5_double_close demoHeap abBuffer (demoHeap.Close 1).1 closedAb none rfl
    [Op.write [99], Op.pipe (some 0)] _ rfl⟩

/-- After a `Close` that received the one value sent on the channel, `Remaining` finds
nothing to receive on a channel that is still open: it blocks for ever. -/
theorem Buffer.Remaining_after_Close (h : Heap) (b : Buffer) (r : Nat) (v : Option Error)
    (hr : b.r = some r) (hch : b.closed = { pending := [v], isClosed := false })
    (h1 : Heap) (b1 : Buffer) (e : Option Error)
    (hclose : Buffer.Close h b = .returned (h1, b1, e)) :
    Buffer.Remaining b1 = .blocked := by
  unfold Buffer.Close at hclose
  simp only [hr, hch, Chan.recv] at hclose
  cases v <;> simp only at hclose <;> cases hclose <;> rfl

/-- C4, evaluated: a sink is created whose background copy ends with a nil error, `ab` is
written, `Close` returns nil; the following `Remaining` blocks for ever instead of
returning `buff`. -/
theorem C4_Remaining_blocks_after_Close :
    ∃ s, run (demoHeap, NewBuffer (some 1) none) [Op.write [97, 98], Op.close] = some s ∧
      Buffer.Close (bufferWriter.Write demoHeap (NewBuffer (some 1) none) [97, 98]).1
        (bufferWriter.Write demoHeap (NewBuffer (some 1) none) [97, 98]).2.1 =
        .returned (s.1, s.2, none) ∧
      s.2.buff = some { unread := [97, 98] } ∧
      Buffer.Remaining s.2 = .blocked :=
  ⟨_, rfl, rfl, rfl, rfl⟩

/-! ## Writes -/

/-- A `Write` on the heap leaves the behaviour of every writer as it was. -/
theorem Heap.Write_respond (h : Heap) (w : Nat) (p : List Byte) (d : Nat) :
    ((h.Write w p).1.writers d).respond = (h.writers d).respond := by
  by_cases hdw : d = w
  · subst hdw
    simp [Heap.Write]
  · simp [Heap.Write, Function.update_noteq hdw]

/-- A `Write` on the heap adds the part reported as written to what the writer has
received. -/
theorem Heap.Write_received (h : Heap) (w : Nat) (p : List Byte) :
    ((h.Write w p).1.writers w).received =
      (h.writers w).received ++ p.take (h.Write w p).2.1 := by
  simp [Heap.Write, Writer.received]

/-- With no destination attached `Write` appends to the buffer, creating it when needed,
and touches nothing else. -/
theorem bufferWriter.Write_buffering (h : Heap) (b : Buffer) (p : List Byte)
    (hd : b.dst = none) :
    bufferWriter.Write h b p =
      (h, { b with buff := some { unread := b.contents ++ p } }, p.length, none) := by
  obtain ⟨buff, r, dst, closed⟩ := b
  simp only at hd
  subst hd
  cases buff <;> rfl

/-- With a destination attached `Write` is the `Write` of the destination. -/
theorem bufferWriter.Write_forwarding (h : Heap) (b : Buffer) (p : List Byte) (d : Nat)
    (hd : b.dst = some d) :
    bufferWriter.Write h b p = ((h.Write d p).1, b, (h.Write d p).2.1, (h.Write d p).2.2) := by
  unfold bufferWriter.Write
  simp only [hd]

/-- Buffered writes of a non-empty list of slices. -/
theorem writeAll_buffering (h : Heap) (b : Buffer) (p : List Byte) (ps : List (List Byte))
    (hd : b.dst = none) :
    writeAll h b (p :: ps) =
      (h, { b with buff := some { unread := b.contents ++ (p :: ps).flatten } },
        (p :: ps).map fun w => (w.length, none)) := by
  induction ps generalizing b p with
  | nil => simp [writeAll, bufferWriter.Write_buffering h b p hd]
  | cons q qs ih =>
    have hstep := bufferWriter.Write_buffering h b p hd
    have hrest := ih { b with buff := some { unread := b.contents ++ p } } q hd
    rw [writeAll, hstep]
    simp only [hrest]
    simp [Buffer.contents, List.append_assoc]

/-- C6: with no destination attached, writing the slices `ws` in order returns
`(len(w), nil)` for each, leaves `dst` nil, and leaves the buffer holding its previous
contents followed by the concatenation of `ws`, the buffer being non-nil as soon as one
write was made; with a destination `d` attached, `Write(w)` returns the pair that
`d.Write(w)` returns and leaves the sink, `buff` included, as it was. -/
theorem C6_buffering_accumulates (h : Heap) (b : Buffer) :
    (b.dst = none → ∀ ws : List (List Byte),
      (writeAll h b ws).2.2 = ws.map (fun w => (w.length, none)) ∧
      (writeAll h b ws).2.1.contents = b.contents ++ ws.flatten ∧
      (ws ≠ [] →
        (writeAll h b ws).2.1.buff = some { unread := b.contents ++ ws.flatten }) ∧
      (writeAll h b ws).2.1.dst = none) ∧
    (∀ d w, b.dst = some d →
      (bufferWriter.Write h b w).2.2 = (h.Write d w).2 ∧
      (bufferWriter.Write h b w).2.1 = b) := by
  constructor
  · intro hd ws
    cases ws with
    | nil => simp [writeAll, hd]
    | cons p ps =>
      rw [writeAll_buffering h b p ps hd]
      simp [Buffer.contents, hd]
  · intro d w hd
    rw [bufferWriter.Write_forwarding h b w d hd]
    exact ⟨rfl, rfl⟩

/-- C6 at concrete sinks: a fresh sink takes `ab`, the empty slice and `c`; a sink
attached to a writer that takes one byte passes `ab` on. -/
theorem C6_buffering_accumulates_witness :
    (writeAll demoHeap (newBuffer (some 1) none) [[97, 98], [], [99]]).2.2 =
      [(2, none), (0, none), (1, none)] ∧
    (writeAll demoHeap (newBuffer (some 1) none) [[97, 98], [], [99]]).2.1.buff =
      some { unread := [97, 98, 99] } ∧
    (bufferWriter.Write demoHeap forwardingOne [97, 98]).2.2 = (1, none) ∧
    (bufferWriter.Write demoHeap forwardingOne [97, 98]).2.1 = forwardingOne :=
  ⟨((C6_buffering_accumulates demoHeap (newBuffer (some 1) none)).1 rfl
      [[97, 98], [], [99]]).1,
    ((C6_buffering_accumulates demoHeap (newBuffer (some 1) none)).1 rfl
      [[97, 98], [], [99]]).2.2.1 (by simp),
    ((C6_buffering_accumulates demoHeap forwardingOne).2 1 [97, 98] rfl).1,
    ((C6_buffering_accumulates demoHeap forwardingOne).2 1 [97, 98] rfl).2⟩

/-! ## Pipe -/

/-- On a sink whose buffer is nil or empty `Pipe` makes no `Write` and switches. -/
theorem Buffer.Pipe_empty (h : Heap) (b : Buffer) (out : Option Nat)
    (hb : b.contents = []) :
    Buffer.Pipe h b out = .returned (h, { b with buff := none, dst := out }, none) := by
  obtain ⟨buff, r, dst, closed⟩ := b
  cases buff with
  | none => rfl
  | some bb =>
    obtain ⟨B⟩ := bb
    simp only [Buffer.contents] at hb
    subst hb
    rfl

/-- The result of `Pipe` on a sink holding the bytes `B`, when the destination reports a count `m` of at
most `len(B)` and the error `e`: the switch is made exactly when `m = len(B)`; otherwise
the buffer keeps `B` without its first `m` bytes and `Pipe` returns `e`, or
`io.ErrShortWrite` when `e` is nil. -/
theorem Buffer.Pipe_count (h : Heap) (b : Buffer) (d : Nat) (B : List Byte) (m : Nat)
    (e : Option Error) (hb : b.buff = some { unread := B })
    (hw : (h.writers d).respond (h.writers d).calls B = (m, e)) (hm : m ≤ B.length)
    (hB : B ≠ []) :
    Buffer.Pipe h b (some d) =
      if m = B.length then
        .returned ((h.Write d B).1, { b with buff := none, dst := some d }, none)
      else
        .returned ((h.Write d B).1, { b with buff := some { unread := B.drop m } },
          some (e.getD Error.ErrShortWrite)) := by
  have hlen : 0 < B.length := List.length_pos.mpr hB
  have h1 : (h.Write d B).2.1 = m := by simp [Heap.Write, hw]
  have h2 : (h.Write d B).2.2 = e := by simp [Heap.Write, hw]
  have hgt : ¬ m > B.length := Nat.not_lt.mpr hm
  unfold Buffer.Pipe
  simp only [hb]
  unfold BytesBuffer.WriteTo
  simp only [BytesBuffer.Len, gt_iff_lt, hlen, if_true, h1, h2]
  rw [if_neg (Nat.not_lt.mpr hm)]
  by_cases hml : m = B.length
  · cases e <;> simp [hml, BytesBuffer.Reset, BytesBuffer.Len]
  · cases e <;> simp [hml, BytesBuffer.Len]

/-- C10: for a sink whose buffer is non-nil and holds `B`, and a destination `d` whose
`Write` of `B` reports `(m, e)` with `m ≤ len(B)`: `Pipe(d)` returns nil with `buff` nil and
`dst = d` exactly when `m = len(B)`, whatever `e` is; when `m ≠ len(B)` it returns `e`, or
`io.ErrShortWrite` when `e` is nil, and leaves `dst` as it was. When `buff` is nil or empty
`Pipe(d)` makes no `Write` (the heap is unchanged), returns nil and sets `dst` to `d`. -/
theorem C10_pipe_decides_by_count (h : Heap) (b : Buffer) (d : Nat) :
    (∀ (B : List Byte) (m : Nat) (e : Option Error), b.buff = some { unread := B } →
      (h.writers d).respond (h.writers d).calls B = (m, e) → m ≤ B.length →
      ∃ h1 b1 res, Buffer.Pipe h b (some d) = .returned (h1, b1, res) ∧
        ((res = none ∧ b1.buff = none ∧ b1.dst = some d) ↔ m = B.length) ∧
        (m ≠ B.length → res = some (e.getD Error.ErrShortWrite) ∧ b1.dst = b.dst)) ∧
    (b.contents = [] →
      Buffer.Pipe h b (some d) = .returned (h, { b with buff := none, dst := some d }, none))
    := by
  constructor
  · intro B m e hb hw hm
    by_cases hB : B = []
    · subst hB
      have hm0 : m = 0 := Nat.le_zero.mp hm
      subst hm0
      refine ⟨h, { b with buff := none, dst := some d }, none, ?_, ?_, ?_⟩
      · exact Buffer.Pipe_empty h b (some d) (by simp [Buffer.contents, hb])
      · simp
      · intro hne
        exact absurd rfl hne
    · rw [Buffer.Pipe_count h b d B m e hb hw hm hB]
      by_cases hml : m = B.length
      · rw [if_pos hml]
        exact ⟨_, _, _, rfl, by simp [hml], fun hne => absurd hml hne⟩
      · rw [if_neg hml]
        exact ⟨_, _, _, rfl, by simp [hml], fun _ => ⟨rfl, rfl⟩⟩
  · intro hb
    exact Buffer.Pipe_empty h b (some d) hb

/-- C10 at a concrete sink: `ab` is piped to a writer that takes one byte. -/
theorem C10_pipe_decides_by_count_witness :
    (∃ h1 b1 res, Buffer.Pipe demoHeap abBuffer (some 1) = .returned (h1, b1, res) ∧
        ((res = none ∧ b1.buff = none ∧ b1.dst = some 1) ↔
          1 = ([97, 98] : List Byte).length) ∧
        (1 ≠ ([97, 98] : List Byte).length →
          res = some ((none : Option Error).getD Error.ErrShortWrite) ∧
            b1.dst = abBuffer.dst)) ∧
    Buffer.Pipe demoHeap forwardingOne (some 0) =
      .returned (demoHeap, { forwardingOne with buff := none, dst := some 0 }, none) :=
  ⟨(C10_pipe_decides_by_count demoHeap abBuffer 1).1 [97, 98] 1 none rfl rfl (by decide),
    (C10_pipe_decides_by_count demoHeap forwardingOne 0).2 rfl⟩

/-- The call `Pipe` panics when the destination reports more bytes than it was given. -/
theorem Buffer.Pipe_overcount (h : Heap) (b : Buffer) (d : Nat) (B : List Byte)
    (hb : b.buff = some { unread := B }) (hB : B ≠ [])
    (hm : B.length < ((h.writers d).respond (h.writers d).calls B).1) :
    Buffer.Pipe h b (some d) = .panicked "bytes.Buffer.WriteTo: invalid Write count" := by
  have hlen : 0 < B.length := List.length_pos.mpr hB
  have h1 : (h.Write d B).2.1 = ((h.writers d).respond (h.writers d).calls B).1 := by
    simp [Heap.Write]
  unfold Buffer.Pipe
  simp only [hb]
  unfold BytesBuffer.WriteTo
  simp only [BytesBuffer.Len, gt_iff_lt, hlen, if_true, h1, if_pos hm]

/-- C2, refuted: a sink holding `ab` is piped to a writer that takes one byte. `Pipe`
returns `io.ErrShortWrite` and `dst` stays nil, but the buffer now holds `b`, not `ab`;
the writer has received `a`, and a following `Pipe` to a writer that takes everything
delivers `b` alone. -/
theorem C2_counterexample :
    ∃ h1 b1, Buffer.Pipe demoHeap abBuffer (some 1) =
        .returned (h1, b1, some Error.ErrShortWrite) ∧
      abBuffer.buff = some { unread := [97, 98] } ∧ abBuffer.dst = none ∧
      b1.dst = none ∧ b1.buff = some { unread := [98] } ∧
      b1.buff ≠ some { unread := [97, 98] } ∧
      (h1.writers 1).received = [97] ∧
      ∃ h2 b2, Buffer.Pipe h1 b1 (some 0) = .returned (h2, b2, none) ∧
        (h2.writers 0).received = [98] :=
  ⟨_, _, rfl, rfl, rfl, rfl, rfl, by decide, rfl, _, _, rfl, rfl⟩

/-- C2, amended: when `Pipe(d)` returns a non-nil error on a sink in buffering mode that
holds `B`, the destination reported a count `m < len(B)`, `dst` is still nil, and the
buffer holds the unwritten portion of `B`, that is `B` without its first `m` bytes, which
`d` has received; it is `B` itself when `m = 0`. A following `Pipe(d2)` to a destination
that takes that portion whole returns nil, switches to `d2` and delivers to it exactly
the unwritten portion. -/
theorem C2_failed_pipe_keeps_unwritten (h : Heap) (b : Buffer) (d : Nat) (B : List Byte)
    (hb : b.buff = some { unread := B }) (hd : b.dst = none)
    (h1 : Heap) (b1 : Buffer) (e : Error)
    (hpipe : Buffer.Pipe h b (some d) = .returned (h1, b1, some e)) :
    ∃ m, m = ((h.writers d).respond (h.writers d).calls B).1 ∧ m < B.length ∧
      b1.dst = none ∧ b1.buff = some { unread := B.drop m } ∧
      (m = 0 → b1.buff = some { unread := B }) ∧
      (h1.writers d).received = (h.writers d).received ++ B.take m ∧
      ∀ d2, (h1.writers d2).respond (h1.writers d2).calls (B.drop m) =
          ((B.drop m).length, none) →
        ∃ h2 b2, Buffer.Pipe h1 b1 (some d2) = .returned (h2, b2, none) ∧
          b2.buff = none ∧ b2.dst = some d2 ∧
          (h2.writers d2).received = (h1.writers d2).received ++ B.drop m := by
  refine ⟨((h.writers d).respond (h.writers d).calls B).1, rfl, ?_⟩
  by_cases hB : B = []
  · subst hB
    rw [Buffer.Pipe_empty h b (some d) (by simp [Buffer.contents, hb])] at hpipe
    simp at hpipe
  by_cases hm : ((h.writers d).respond (h.writers d).calls B).1 ≤ B.length
  · rw [Buffer.Pipe_count h b d B _ _ hb rfl hm hB] at hpipe
    by_cases hml : ((h.writers d).respond (h.writers d).calls B).1 = B.length
    · rw [if_pos hml] at hpipe
      simp at hpipe
    · rw [if_neg hml] at hpipe
      simp only [Outcome.returned.injEq, Prod.mk.injEq] at hpipe
      obtain ⟨hh, hbb, _⟩ := hpipe
      subst hh
      subst hbb
      have hlt : ((h.writers d).respond (h.writers d).calls B).1 < B.length :=
        lt_of_le_of_ne hm hml
      refine ⟨hlt, hd, rfl, ?_, ?_, ?_⟩
      · intro h0
        simp [h0]
      · rw [Heap.Write_received]
        simp [Heap.Write]
      · intro d2 hacc
        have hne : B.drop ((h.writers d).respond (h.writers d).calls B).1 ≠ [] := by
          intro hnil
          have := congrArg List.length hnil
          simp at this
          omega
        rw [Buffer.Pipe_count _ _ d2 _ _ _ rfl hacc (le_refl _) hne, if_pos rfl]
        refine ⟨_, _, rfl, rfl, rfl, ?_⟩
        have hn : (Heap.Write (h.Write d B).1 d2
            (B.drop ((h.writers d).respond (h.writers d).calls B).1)).2.1 =
            (B.drop ((h.writers d).respond (h.writers d).calls B).1).length := by
          show (((h.Write d B).1.writers d2).respond _ _).1 = _
          rw [hacc]
        rw [Heap.Write_received, hn, List.take_length]
  · rw [Buffer.Pipe_overcount h b d B hb hB (Nat.lt_of_not_le hm)] at hpipe
    simp at hpipe

/-- C2 amended, at a concrete sink: `ab` is piped to a writer that takes one byte, then to
a writer that takes everything. -/
theorem C2_failed_pipe_keeps_unwritten_witness :
    Buffer.Pipe demoHeap abBuffer (some 1) =
      .returned ((demoHeap.Write 1 [97, 98]).1, stuckAb, some Error.ErrShortWrite) ∧
    ∃ m, m = ((demoHeap.writers 1).respond (demoHeap.writers 1).calls [97, 98]).1 ∧
      m < ([97, 98] : List Byte).length ∧
      stuckAb.dst = none ∧ stuckAb.buff = some { unread := List.drop m [97, 98] } ∧
      (m = 0 → stuckAb.buff = some { unread := [97, 98] }) ∧
      ((demoHeap.Write 1 [97, 98]).1.writers 1).received =
        (demoHeap.writers 1).received ++ List.take m [97, 98] ∧
      ∀ d2, ((demoHeap.Write 1 [97, 98]).1.writers d2).respond
            ((demoHeap.Write 1 [97, 98]).1.writers d2).calls (List.drop m [97, 98]) =
          ((List.drop m ([97, 98] : List Byte)).length, none) →
        ∃ h2 b2, Buffer.Pipe (demoHeap.Write 1 [97, 98]).1 stuckAb (some d2) =
            .returned (h2, b2, none) ∧
          b2.buff = none ∧ b2.dst = some d2 ∧
          (h2.writers d2).received =
            ((demoHeap.Write 1 [97, 98]).1.writers d2).received ++ List.drop m [97, 98] :=
  ⟨rfl, C2_failed_pipe_keeps_unwritten demoHeap abBuffer 1 [97, 98] rfl rfl
    (demoHeap.Write 1 [97, 98]).1 stuckAb Error.ErrShortWrite rfl⟩

/-! ## Handover -/

/-- On `Pipe` to a destination that takes the buffered bytes whole: the switch is made and the
destination has received those bytes. -/
theorem Buffer.Pipe_accepting (h : Heap) (b : Buffer) (d : Nat)
    (hacc : (h.writers d).respond (h.writers d).calls b.contents =
      (b.contents.length, none)) :
    ∃ h2, Buffer.Pipe h b (some d) =
        .returned (h2, { b with buff := none, dst := some d }, none) ∧
      (h2.writers d).received = (h.writers d).received ++ b.contents ∧
      (h2.writers d).respond = (h.writers d).respond := by
  by_cases hc : b.contents = []
  · exact ⟨h, Buffer.Pipe_empty h b (some d) hc, by simp [hc], rfl⟩
  · cases hbuff : b.buff with
    | none => simp [Buffer.contents, hbuff] at hc
    | some bb =>
      obtain ⟨B⟩ := bb
      have hcB : b.contents = B := by simp [Buffer.contents, hbuff]
      rw [hcB] at hacc hc
      rw [hcB, Buffer.Pipe_count h b d B B.length none hbuff hacc (le_refl _) hc, if_pos rfl]
      refine ⟨_, rfl, ?_, Heap.Write_respond h d B d⟩
      have hn : (h.Write d B).2.1 = B.length := by
        show ((h.writers d).respond _ _).1 = _
        rw [hacc]
      rw [Heap.Write_received, hn, List.take_length]

/-- Forwarded writes to a destination that takes every slice whole. -/
theorem writeAll_forwarding (ws : List (List Byte)) (h : Heap) (b : Buffer) (d : Nat)
    (hd : b.dst = some d)
    (hacc : ∀ hist p, (h.writers d).respond hist p = (p.length, none)) :
    (writeAll h b ws).2.1 = b ∧
    (writeAll h b ws).2.2 = ws.map (fun w => (w.length, none)) ∧
    ((writeAll h b ws).1.writers d).received = (h.writers d).received ++ ws.flatten := by
  induction ws generalizing h with
  | nil => simp [writeAll]
  | cons p ps ih =>
    have hacc1 : ∀ hist q, ((h.Write d p).1.writers d).respond hist q = (q.length, none) := by
      intro hist q
      rw [Heap.Write_respond]
      exact hacc hist q
    have hres : (h.Write d p).2 = (p.length, none) := by
      show (h.writers d).respond _ _ = _
      exact hacc _ p
    have hn : (h.Write d p).2.1 = p.length := by rw [hres]
    have he : (h.Write d p).2.2 = none := by rw [hres]
    obtain ⟨ih1, ih2, ih3⟩ := ih (h.Write d p).1 hacc1
    rw [writeAll, bufferWriter.Write_forwarding h b p d hd]
    refine ⟨ih1, ?_, ?_⟩
    · simp only [ih2, hn, he, List.map_cons]
    · simp only [ih3]
      rw [Heap.Write_received, hn, List.take_length]
      simp [List.append_assoc]

/-- Buffered writes of any list of slices, from a sink with no destination. -/
theorem writeAll_buffering_all (h : Heap) (b : Buffer) (ws : List (List Byte))
    (hd : b.dst = none) :
    (writeAll h b ws).1 = h ∧
    (writeAll h b ws).2.2 = ws.map (fun w => (w.length, none)) ∧
    (writeAll h b ws).2.1.contents = b.contents ++ ws.flatten ∧
    (writeAll h b ws).2.1.dst = none := by
  cases ws with
  | nil => simp [writeAll, hd]
  | cons p ps =>
    rw [writeAll_buffering h b p ps hd]
    simp [Buffer.contents, hd]

/-- C1: on a freshly created sink, write the slices `ws1`, pipe to a destination `d` that
takes every slice whole, write the slices `ws2`: every `Write` returns `(len, nil)`, `Pipe`
returns nil, what `d` has received grows by exactly `concat(ws1) ++ concat(ws2)`, and the
final `buff` is nil. -/
theorem C1_exactly_once_handover (h : Heap) (r : Option Nat) (copyErr : Option Error)
    (d : Nat) (ws1 ws2 : List (List Byte))
    (hacc : ∀ hist p, (h.writers d).respond hist p = (p.length, none)) :
    ∃ h2 b2,
      Buffer.Pipe (writeAll h (newBuffer r copyErr) ws1).1
        (writeAll h (newBuffer r copyErr) ws1).2.1 (some d) = .returned (h2, b2, none) ∧
      (writeAll h (newBuffer r copyErr) ws1).2.2 = ws1.map (fun w => (w.length, none)) ∧
      (writeAll h2 b2 ws2).2.2 = ws2.map (fun w => (w.length, none)) ∧
      ((writeAll h2 b2 ws2).1.writers d).received =
        (h.writers d).received ++ ws1.flatten ++ ws2.flatten ∧
      (writeAll h2 b2 ws2).2.1.buff = none := by
  obtain ⟨hh, hres, hcont, hdst⟩ :=
    writeAll_buffering_all h (newBuffer r copyErr) ws1 rfl
  have hcont1 : (writeAll h (newBuffer r copyErr) ws1).2.1.contents = ws1.flatten := by
    rw [hcont]
    rfl
  have hacc0 : ((writeAll h (newBuffer r copyErr) ws1).1.writers d).respond
      ((writeAll h (newBuffer r copyErr) ws1).1.writers d).calls
      (writeAll h (newBuffer r copyErr) ws1).2.1.contents =
      ((writeAll h (newBuffer r copyErr) ws1).2.1.contents.length, none) := by
    rw [hh]
    exact hacc _ _
  obtain ⟨h2, hpipe, hrecv, hresp⟩ := Buffer.Pipe_accepting _ _ d hacc0
  have hacc2 : ∀ hist p, (h2.writers d).respond hist p = (p.length, none) := by
    intro hist p
    rw [hresp, hh]
    exact hacc hist p
  obtain ⟨f1, f2, f3⟩ := writeAll_forwarding ws2 h2
    { (writeAll h (newBuffer r copyErr) ws1).2.1 with buff := none, dst := some d } d rfl hacc2
  refine ⟨h2, _, hpipe, hres, f2, ?_, ?_⟩
  · rw [f3, hrecv, hh, hcont1]
  · rw [f1]

/-- C1 at a concrete run: the scenario of the specification, `hello` then ` world`
buffered, a destination attached, then `!` written. -/
theorem C1_exactly_once_handover_witness :
    ∃ h2 b2,
      Buffer.Pipe (writeAll demoHeap (newBuffer (some 1) none)
          [[104, 101, 108, 108, 111], [32, 119, 111, 114, 108, 100]]).1
        (writeAll demoHeap (newBuffer (some 1) none)
          [[104, 101, 108, 108, 111], [32, 119, 111, 114, 108, 100]]).2.1 (some 0) =
        .returned (h2, b2, none) ∧
      (writeAll demoHeap (newBuffer (some 1) none)
          [[104, 101, 108, 108, 111], [32, 119, 111, 114, 108, 100]]).2.2 =
        [(5, none), (6, none)] ∧
      (writeAll h2 b2 [[33]]).2.2 = [(1, none)] ∧
      ((writeAll h2 b2 [[33]]).1.writers 0).received =
        [104, 101, 108, 108, 111, 32, 119, 111, 114, 108, 100, 33] ∧
      (writeAll h2 b2 [[33]]).2.1.buff = none :=
  C1_exactly_once_handover demoHeap (some 1) none 0
    [[104, 101, 108, 108, 111], [32, 119, 111, 114, 108, 100]] [[33]] (fun _ _ => rfl)

/-! ## Modes -/

/-- A `Pipe` that returns either made the switch (`buff` nil, `dst` the new destination)
or found a buffer, kept one and left `dst` as it was. -/
theorem Buffer.Pipe_result (h : Heap) (b : Buffer) (out : Option Nat) (h1 : Heap)
    (b1 : Buffer) (res : Option Error)
    (hp : Buffer.Pipe h b out = .returned (h1, b1, res)) :
    (b1.buff = none ∧ b1.dst = out) ∨ (b.buff ≠ none ∧ b1.buff ≠ none ∧ b1.dst = b.dst) := by
  unfold Buffer.Pipe at hp
  cases hb : b.buff with
  | none =>
    simp only [hb] at hp
    cases hp
    exact Or.inl ⟨rfl, rfl⟩
  | some bb =>
    simp only [hb] at hp
    cases hw : bb.WriteTo h out with
    | returned x =>
      obtain ⟨h2, bb1, n, err⟩ := x
      simp only [hw] at hp
      split_ifs at hp
      · cases err <;> simp only at hp <;> cases hp <;> exact Or.inr ⟨by simp, by simp, rfl⟩
      · cases hp
        exact Or.inl ⟨rfl, rfl⟩
    | panicked msg => simp [hw] at hp
    | blocked => simp [hw] at hp

/-- A `Close` that returns leaves `buff` and `dst` as they were. -/
theorem Buffer.Close_fields (h : Heap) (b : Buffer) (h1 : Heap) (b1 : Buffer)
    (e : Option Error) (hclose : Buffer.Close h b = .returned (h1, b1, e)) :
    b1.buff = b.buff ∧ b1.dst = b.dst := by
  unfold Buffer.Close at hclose
  cases hr : b.r with
  | none =>
    simp only [hr] at hclose
    cases hclose
    exact ⟨rfl, rfl⟩
  | some r =>
    simp only [hr] at hclose
    cases hrecv : Chan.recv b.closed with
    | returned a =>
      obtain ⟨ch, copyErr⟩ := a
      simp only [hrecv] at hclose
      cases copyErr <;> simp only at hclose <;> cases hclose <;> exact ⟨rfl, rfl⟩
    | panicked msg => simp [hrecv] at hclose
    | blocked => simp [hrecv] at hclose

/-- A `Remaining` that returns leaves `buff` and `dst` as they were. -/
theorem Buffer.Remaining_fields (b b1 : Buffer) (out : Option BytesBuffer)
    (hrem : Buffer.Remaining b = .returned (b1, out)) :
    b1.buff = b.buff ∧ b1.dst = b.dst := by
  unfold Buffer.Remaining at hrem
  cases hrecv : Chan.recv b.closed with
  | returned x =>
    obtain ⟨ch, err⟩ := x
    simp only [hrecv] at hrem
    cases err <;> simp only at hrem
    · cases hrem
      exact ⟨rfl, rfl⟩
    · cases hrem
  | panicked msg => simp [hrecv] at hrem
  | blocked => simp [hrecv] at hrem

/-- Every call that returns keeps the two modes apart. -/
theorem step_exclusive (s s1 : Heap × Buffer) (op : Op)
    (hinv : s.2.dst ≠ none → s.2.buff = none) (hstep : step s op = some s1) :
    s1.2.dst ≠ none → s1.2.buff = none := by
  obtain ⟨h, b⟩ := s
  cases op with
  | write p =>
    simp only [step, Option.some.injEq] at hstep
    subst hstep
    cases hd : b.dst with
    | none =>
      rw [bufferWriter.Write_buffering h b p hd]
      intro hne
      exact absurd hd hne
    | some d =>
      rw [bufferWriter.Write_forwarding h b p d hd]
      intro _
      exact hinv (by simp [hd])
  | pipe out =>
    simp only [step] at hstep
    cases hp : Buffer.Pipe h b out with
    | returned a =>
      obtain ⟨h2, b2, res⟩ := a
      simp only [hp, Option.some.injEq] at hstep
      subst hstep
      rcases Buffer.Pipe_result h b out h2 b2 res hp with ⟨hb2, _⟩ | ⟨hb, _, hd2⟩
      · intro _
        exact hb2
      · intro hne
        simp only [hd2] at hne
        exact absurd (hinv hne) hb
    | panicked msg => simp [hp] at hstep
    | blocked => simp [hp] at hstep
  | close =>
    simp only [step] at hstep
    cases hp : Buffer.Close h b with
    | returned a =>
      obtain ⟨h2, b2, e⟩ := a
      simp only [hp, Option.some.injEq] at hstep
      subst hstep
      obtain ⟨hb2, hd2⟩ := Buffer.Close_fields h b h2 b2 e hp
      simp only [hb2, hd2]
      exact hinv
    | panicked msg => simp [hp] at hstep
    | blocked => simp [hp] at hstep
  | remaining =>
    simp only [step] at hstep
    cases hp : Buffer.Remaining b with
    | returned a =>
      obtain ⟨b2, out⟩ := a
      simp only [hp, Option.some.injEq] at hstep
      subst hstep
      obtain ⟨hb2, hd2⟩ := Buffer.Remaining_fields b b2 out hp
      simp only [hb2, hd2]
      exact hinv
    | panicked msg => simp [hp] at hstep
    | blocked => simp [hp] at hstep

/-- Every call that returns, other than a `Pipe` of a nil destination, keeps a sink that
is forwarding in that mode. -/
theorem step_forwarding (s s1 : Heap × Buffer) (op : Op) (hop : op ≠ Op.pipe none)
    (hdst : s.2.dst ≠ none) (hbuff : s.2.buff = none) (hstep : step s op = some s1) :
    s1.2.dst ≠ none ∧ s1.2.buff = none := by
  have hexcl := step_exclusive s s1 op (fun _ => hbuff) hstep
  suffices hd1 : s1.2.dst ≠ none from ⟨hd1, hexcl hd1⟩
  obtain ⟨h, b⟩ := s
  cases op with
  | write p =>
    simp only [step, Option.some.injEq] at hstep
    subst hstep
    cases hd : b.dst with
    | none => exact absurd hd hdst
    | some d =>
      rw [bufferWriter.Write_forwarding h b p d hd]
      exact hdst
  | pipe out =>
    simp only [step] at hstep
    cases hp : Buffer.Pipe h b out with
    | returned a =>
      obtain ⟨h2, b2, res⟩ := a
      simp only [hp, Option.some.injEq] at hstep
      subst hstep
      rcases Buffer.Pipe_result h b out h2 b2 res hp with ⟨_, hd2⟩ | ⟨hb, _, _⟩
      · simp only [hd2]
        intro hnone
        exact hop (by rw [hnone])
      · exact absurd hbuff hb
    | panicked msg => simp [hp] at hstep
    | blocked => simp [hp] at hstep
  | close =>
    simp only [step] at hstep
    cases hp : Buffer.Close h b with
    | returned a =>
      obtain ⟨h2, b2, e⟩ := a
      simp only [hp, Option.some.injEq] at hstep
      subst hstep
      obtain ⟨_, hd2⟩ := Buffer.Close_fields h b h2 b2 e hp
      simp only [hd2]
      exact hdst
    | panicked msg => simp [hp] at hstep
    | blocked => simp [hp] at hstep
  | remaining =>
    simp only [step] at hstep
    cases hp : Buffer.Remaining b with
    | returned a =>
      obtain ⟨b2, out⟩ := a
      simp only [hp, Option.some.injEq] at hstep
      subst hstep
      obtain ⟨_, hd2⟩ := Buffer.Remaining_fields b b2 out hp
      simp only [hd2]
      exact hdst
    | panicked msg => simp [hp] at hstep
    | blocked => simp [hp] at hstep

/-- Every sequence of calls that return keeps the two modes apart. -/
theorem run_exclusive (ops : List Op) (s s1 : Heap × Buffer)
    (hinv : s.2.dst ≠ none → s.2.buff = none) (hrun : run s ops = some s1) :
    s1.2.dst ≠ none → s1.2.buff = none := by
  induction ops generalizing s with
  | nil =>
    simp only [run, Option.some.injEq] at hrun
    subst hrun
    exact hinv
  | cons op ops ih =>
    simp only [run] at hrun
    cases hs : step s op with
    | none => simp [hs] at hrun
    | some s2 =>
      simp only [hs] at hrun
      exact ih s2 (step_exclusive s s2 op hinv hs) hrun

/-- Every sequence of calls that return, none a `Pipe` of a nil destination, keeps a sink
that is forwarding in that mode. -/
theorem run_forwarding (ops : List Op) (s s1 : Heap × Buffer)
    (hops : ∀ op ∈ ops, op ≠ Op.pipe none)
    (hdst : s.2.dst ≠ none) (hbuff : s.2.buff = none) (hrun : run s ops = some s1) :
    s1.2.dst ≠ none ∧ s1.2.buff = none := by
  induction ops generalizing s with
  | nil =>
    simp only [run, Option.some.injEq] at hrun
    subst hrun
    exact ⟨hdst, hbuff⟩
  | cons op ops ih =>
    simp only [run] at hrun
    cases hs : step s op with
    | none => simp [hs] at hrun
    | some s2 =>
      simp only [hs] at hrun
      obtain ⟨hd2, hb2⟩ :=
        step_forwarding s s2 op (hops op (List.mem_cons_self op ops)) hdst hbuff hs
      exact ih s2 (fun o ho => hops o (List.mem_cons_of_mem op ho)) hd2 hb2 hrun

/-- C9: in every state reached from a freshly created sink by any sequence of calls that
return, a destination attached means `buff` is nil; and from such a state with a
destination attached, every further sequence of calls that return, none of them a `Pipe`
of a nil destination, ends with a destination attached and `buff` nil. -/
theorem C9_mode_exclusivity (h : Heap) (r : Option Nat) (copyErr : Option Error)
    (ops : List Op) (s : Heap × Buffer)
    (hrun : run (h, newBuffer r copyErr) ops = some s) :
    (s.2.dst ≠ none → s.2.buff = none) ∧
    (∀ (ops2 : List Op) (s2 : Heap × Buffer), (∀ op ∈ ops2, op ≠ Op.pipe none) →
      s.2.dst ≠ none → run s ops2 = some s2 → s2.2.dst ≠ none ∧ s2.2.buff = none) := by
  have hexcl : s.2.dst ≠ none → s.2.buff = none :=
    run_exclusive ops (h, newBuffer r copyErr) s (fun _ => rfl) hrun
  refine ⟨hexcl, ?_⟩
  intro ops2 s2 hops2 hdst hrun2
  exact run_forwarding ops2 s s2 hops2 hdst (hexcl hdst) hrun2

/-- C9 at a concrete run: `ab` is written, piped to a writer that takes one byte (the
`Pipe` fails), piped to a writer that takes everything, and `c` is written; then the sink
is piped to a third writer, written to and closed. -/
theorem C9_mode_exclusivity_witness :
    ∃ s s2, run (demoHeap, newBuffer (some 1) none)
        [Op.write [97, 98], Op.pipe (some 1), Op.pipe (some 0), Op.write [99]] = some s ∧
      run s [Op.pipe (some 2), Op.write [100], Op.close] = some s2 ∧
      s.2.dst = some 0 ∧ (s.1.writers 0).received = [98, 99] ∧
      (s.2.dst ≠ none → s.2.buff = none) ∧
      s2.2.dst ≠ none ∧ s2.2.buff = none :=
  ⟨_, _, rfl, rfl, rfl, rfl,
    (C9_mode_exclusivity demoHeap (some 1) none
      [Op.write [97, 98], Op.pipe (some 1), Op.pipe (some 0), Op.write [99]] _ rfl).1,
    (C9_mode_exclusivity demoHeap (some 1) none
      [Op.write [97, 98], Op.pipe (some 1), Op.pipe (some 0), Op.write [99]] _ rfl).2
      [Op.pipe (some 2), Op.write [100], Op.close] _ (by decide) (by decide) rfl⟩

end Out
